import Mathlib

/-!
Verification of the word/speaker alignment core of `src/app.py`
(`transcribe_audio` and its nested `add_speaker_segment`).

Times and probabilities are embedded as rationals; Python string
operations (`str.strip`, `str.join`, `str.endswith`) are modelled as
functions on the character lists underlying Lean strings.
-/

namespace Transcriber

/-- Model of Python `str.strip()` on the underlying character list:
drop whitespace from the left, then from the right. -/
def stripChars (l : List Char) : List Char :=
  ((l.dropWhile Char.isWhitespace).reverse.dropWhile Char.isWhitespace).reverse

/-- Model of Python `str.strip()`. -/
def pyStrip (s : String) : String :=
  ⟨stripChars s.data⟩

/-- Model of Python `str.endswith(suffix)`. -/
def pyEndsWith (s suffix : String) : Bool :=
  suffix.data.isSuffixOf s.data

/-- Model of Python `" ".join(l)`. -/
def joinSpace : List String → String
  | [] => ""
  | [t] => t
  | t :: ts => t ++ " " ++ joinSpace ts

/-- Model of Python `"".join(x + " " for x in l)` (line 92 of `app.py`). -/
def concatTrail : List String → String
  | [] => ""
  | t :: ts => t ++ " " ++ concatTrail ts

/-- One entry of `all_whisper_words` (lines 85-90 of `app.py`). -/
structure Word where
  text : String
  start : ℚ
  «end» : ℚ
  probability : ℚ
deriving DecidableEq

/-- One diarization track `(speech_segment, speaker_label)`
yielded by `diarization_results.itertracks` (line 114 of `app.py`). -/
structure SpeechInterval where
  start : ℚ
  «end» : ℚ
  speaker : String
deriving DecidableEq

/-- One entry of `word_chunks_for_frontend` (lines 123-128 and 138-143). -/
structure Chunk where
  text : String
  timestamp : ℚ × ℚ
  score : ℚ
  speaker : Option String
deriving DecidableEq

/-- The chunk built from word `w` under speaker label `spk`
(lines 123-128 of `app.py`). -/
def mkChunk (spk : String) (w : Word) : Chunk :=
  ⟨w.text, (w.start, w.«end»), w.probability, some spk⟩

/-- The chunk built from word `w` in the no-diarization branch
(lines 138-143 of `app.py`): `speaker` is `None`. -/
def mkChunkPlain (w : Word) : Chunk :=
  ⟨w.text, (w.start, w.«end»), w.probability, none⟩

/-- The selection test of line 121 of `app.py`:
`word["start"] >= speech_segment.start and word["end"] <= speech_segment.end`.
(The `elif word["start"] > speech_segment.end: pass` on lines 129-130 is a
no-op and needs no embedding.) -/
def wordIn (w : Word) (iv : SpeechInterval) : Prop :=
  iv.start ≤ w.start ∧ w.«end» ≤ iv.«end»

instance (w : Word) (iv : SpeechInterval) : Decidable (wordIn w iv) :=
  inferInstanceAs (Decidable (_ ∧ _))

/-- Python `f"{current_speaker}"`: `None` renders as `"None"`. -/
def speakerRepr : Option String → String
  | none => "None"
  | some s => s

/-- The mutable request-local state of the diarization branch:
`current_speaker`, `current_speaker_words`, `final_transcript_text`,
`word_chunks_for_frontend`. -/
structure AlignState where
  currentSpeaker : Option String
  buffer : List Word
  text : String
  chunks : List Chunk
deriving DecidableEq

/-- State at lines 94-102 of `app.py`. -/
def initState : AlignState :=
  ⟨none, [], "", []⟩

/-- The nested function `add_speaker_segment` (lines 104-112 of `app.py`).
When the buffer is non-empty its space-joined, stripped text is appended as
a line `f"{current_speaker}: {segment_text}\n"` (preceded by a newline when
the accumulated text does not already end in one), unless that stripped text
is empty; in either case the buffer is cleared. -/
def addSpeakerSegment (s : AlignState) : AlignState :=
  if s.buffer ≠ [] then
    if pyStrip (joinSpace (s.buffer.map Word.text)) ≠ "" then
      { s with
        text :=
          (if s.text ≠ "" ∧ ¬ pyEndsWith s.text "\n" then s.text ++ "\n" else s.text)
            ++ speakerRepr s.currentSpeaker ++ ": "
            ++ pyStrip (joinSpace (s.buffer.map Word.text)) ++ "\n"
        buffer := [] }
    else
      { s with buffer := [] }
  else s

/-- One iteration of the loop over diarization tracks
(lines 114-130 of `app.py`): flush the buffer when the speaker changes,
set `current_speaker`, then append every fully contained word to the
buffer and to the chunk list. -/
def processInterval (words : List Word) (s : AlignState) (iv : SpeechInterval) :
    AlignState :=
  let s1 :=
    if s.currentSpeaker.isSome ∧ s.currentSpeaker ≠ some iv.speaker then
      addSpeakerSegment s
    else s
  let sel := words.filter fun w => decide (wordIn w iv)
  { s1 with
    currentSpeaker := some iv.speaker
    buffer := s1.buffer ++ sel
    chunks := s1.chunks ++ sel.map (mkChunk iv.speaker) }

/-- The whole diarization branch (lines 101-132 of `app.py`):
fold over the tracks, then the final `add_speaker_segment()` call. -/
def runDiar (words : List Word) (intervals : List SpeechInterval) : AlignState :=
  addSpeakerSegment (intervals.foldl (processInterval words) initState)

/-- The value of `final_transcript_text` after the diarization branch. -/
def diarTranscript (words : List Word) (intervals : List SpeechInterval) : String :=
  (runDiar words intervals).text

/-- The value of `word_chunks_for_frontend` after the diarization branch. -/
def diarChunks (words : List Word) (intervals : List SpeechInterval) : List Chunk :=
  (runDiar words intervals).chunks

/-- The value of `full_text_from_whisper` (line 92 of `app.py`). -/
def fullTextFromWhisper (words : List Word) : String :=
  pyStrip (concatTrail (words.map Word.text))

/-- The `'text'` and `'chunks'` fields of the JSON response
(lines 147-151 of `app.py`). -/
structure TranscribeResult where
  text : String
  chunks : List Chunk
deriving DecidableEq

/-- The aligner output as returned to the client: the diarization branch or
the plain branch (lines 97-151 of `app.py`), with the final
`final_transcript_text.strip()` of line 148 applied. -/
def transcribeAlign (diarize : Bool) (words : List Word)
    (intervals : List SpeechInterval) : TranscribeResult :=
  if diarize then
    { text := pyStrip (diarTranscript words intervals)
      chunks := diarChunks words intervals }
  else
    { text := pyStrip (fullTextFromWhisper words)
      chunks := words.map mkChunkPlain }

/-- The chunks contributed interval by interval: for each interval, every
fully contained word (in word order) tagged with the interval's label. -/
def chunksSpec (words : List Word) : List SpeechInterval → List Chunk
  | [] => []
  | iv :: ivs =>
    (words.filter fun w => decide (wordIn w iv)).map (mkChunk iv.speaker)
      ++ chunksSpec words ivs

/-- The stripped, space-joined text of the words selected for one interval:
the `segment_text` that `add_speaker_segment` would emit for it. -/
def segText (words : List Word) (iv : SpeechInterval) : String :=
  pyStrip (joinSpace ((words.filter fun w => decide (wordIn w iv)).map Word.text))

/-! ### A line-structured view of the grouped transcript

`AlignState.text` is only ever extended by whole lines
`f"{current_speaker}: {segment_text}\n"`.  The following model keeps those
lines as a list of (speaker, segment text) pairs; a simulation argument
shows it renders to exactly the accumulated transcript string. -/

/-- Line-structured counterpart of `AlignState`. -/
structure LinesState where
  currentSpeaker : Option String
  buffer : List Word
  lines : List (String × String)
  chunks : List Chunk
deriving DecidableEq

def initLines : LinesState :=
  ⟨none, [], [], []⟩

/-- Render the collected (speaker, segment text) lines the way
`add_speaker_segment` concatenates them. -/
def renderLines : List (String × String) → String
  | [] => ""
  | p :: ps => p.1 ++ ": " ++ p.2 ++ "\n" ++ renderLines ps

/-- The function `add_speaker_segment`, at the level of the line list. -/
def flushLines (s : LinesState) : LinesState :=
  if s.buffer ≠ [] then
    if pyStrip (joinSpace (s.buffer.map Word.text)) ≠ "" then
      { s with
        lines := s.lines
          ++ [(speakerRepr s.currentSpeaker,
                pyStrip (joinSpace (s.buffer.map Word.text)))]
        buffer := [] }
    else
      { s with buffer := [] }
  else s

/-- One diarization-track iteration, at the level of the line list. -/
def stepLines (words : List Word) (s : LinesState) (iv : SpeechInterval) :
    LinesState :=
  let s1 :=
    if s.currentSpeaker.isSome ∧ s.currentSpeaker ≠ some iv.speaker then
      flushLines s
    else s
  { s1 with
    currentSpeaker := some iv.speaker
    buffer := s1.buffer ++ words.filter fun w => decide (wordIn w iv)
    chunks := s1.chunks ++ (words.filter fun w => decide (wordIn w iv)).map
      (mkChunk iv.speaker) }

/-- The diarization branch, at the level of the line list. -/
def runLines (words : List Word) (intervals : List SpeechInterval) : LinesState :=
  flushLines (intervals.foldl (stepLines words) initLines)

/-- The (speaker, segment text) lines of the grouped transcript. -/
def diarLines (words : List Word) (intervals : List SpeechInterval) :
    List (String × String) :=
  (runLines words intervals).lines

/-- Interpretation of a `LinesState` as the corresponding `AlignState`. -/
def toAlign (s : LinesState) : AlignState :=
  ⟨s.currentSpeaker, s.buffer, renderLines s.lines, s.chunks⟩

/-! ### Model of the surrounding request handler (for the determinism claim)

The only state shared between requests is the lazily loaded
`diarization_pipeline` handle (lines 22-23 and 54-72 of `app.py`).  The model
reduces it to a `Bool` (loaded or not); `loadOk` abstracts whether the token
is present and `Pipeline.from_pretrained` succeeds when a load is attempted.
On a failed load the handle is reset to `None` (line 71) and the request
errors (line 72); otherwise the aligner runs on the request-local data. -/

inductive ReqOutcome where
  | ok (r : TranscribeResult)
  | failed
deriving DecidableEq

/-- Request handler: returns the outcome and the new global pipeline state. -/
def handleRequest (pipelineLoaded loadOk diarize : Bool) (words : List Word)
    (intervals : List SpeechInterval) : ReqOutcome × Bool :=
  if diarize && !pipelineLoaded then
    if loadOk then (ReqOutcome.ok (transcribeAlign true words intervals), true)
    else (ReqOutcome.failed, false)
  else
    (ReqOutcome.ok (transcribeAlign diarize words intervals), pipelineLoaded)

/-! ### Concrete inputs used by the testable-property scenarios -/

/-- Rational 0.5 built in explicitly normalized form (kernel-reducible). -/
def qHalf : ℚ := Rat.mk' 1 2 (by decide) (by decide)

/-- Rational 0.6 built in explicitly normalized form. -/
def qSixTenths : ℚ := Rat.mk' 3 5 (by decide) (by decide)

/-- Rational 0.9 built in explicitly normalized form. -/
def qNineTenths : ℚ := Rat.mk' 9 10 (by decide) (by decide)

/-- Rational 0.8 built in explicitly normalized form. -/
def qEightTenths : ℚ := Rat.mk' 4 5 (by decide) (by decide)

/-- Rational 0.4 built in explicitly normalized form. -/
def qFourTenths : ℚ := Rat.mk' 2 5 (by decide) (by decide)

/-- Rational 0.7 built in explicitly normalized form. -/
def qSevenTenths : ℚ := Rat.mk' 7 10 (by decide) (by decide)

/-- The word `{"a", 0.0, 0.5, 0.9}` of the spec scenarios. -/
def wordA : Word := ⟨"a", 0, qHalf, qNineTenths⟩

/-- The word `{"b", 0.6, 1.0, 0.8}` of the spec scenarios. -/
def wordB : Word := ⟨"b", qSixTenths, 1, qEightTenths⟩

/-- A word spanning the boundary between `[0, 0.5]` and `[0.5, 1]`. -/
def wordX : Word := ⟨"x", qFourTenths, qSevenTenths, 1⟩

def wordHi : Word := ⟨"hi", 0, 1, 1⟩

def wordYo : Word := ⟨"yo", 2, 3, 1⟩

def wordOk : Word := ⟨"ok", 4, 5, 1⟩

/-- A word whose (already stripped) text is empty. -/
def wordNil : Word := ⟨"", 4, 5, 1⟩

/-! ### Basic facts about the Python string primitives -/

theorem dropWhile_idem {α : Type} (p : α → Bool) (l : List α) :
    (l.dropWhile p).dropWhile p = l.dropWhile p := by
  induction l with
  | nil => rfl
  | cons x xs ih =>
    by_cases h : p x
    · simp [List.dropWhile_cons, h, ih]
    · simp [List.dropWhile_cons, h]

theorem dropWhile_of_prefix {α : Type} (p : α → Bool) {t l : List α}
    (hp : t <+: l) (hl : l.dropWhile p = l) : t.dropWhile p = t := by
  cases l with
  | nil =>
    rw [List.prefix_nil] at hp
    simp [hp]
  | cons x xs =>
    have hx : ¬ p x = true := by
      have := List.dropWhile_eq_self_iff.mp hl (by simp)
      simpa using this
    rcases List.prefix_cons_iff.mp hp with h0 | ⟨t', ht', _⟩
    · simp [h0]
    · subst ht'
      simp [List.dropWhile_cons, hx]

theorem stripRight_suffix (l : List Char) :
    (l.reverse.dropWhile Char.isWhitespace).reverse <+: l := by
  have h := List.dropWhile_suffix (l := l.reverse) Char.isWhitespace
  have h2 := List.reverse_prefix.mpr h
  rwa [List.reverse_reverse] at h2

theorem stripChars_dropWhile (l : List Char) :
    (stripChars l).dropWhile Char.isWhitespace = stripChars l := by
  unfold stripChars
  exact dropWhile_of_prefix _ (stripRight_suffix _) (dropWhile_idem _ l)

theorem stripChars_idem (l : List Char) :
    stripChars (stripChars l) = stripChars l := by
  have h1 : stripChars (stripChars l)
      = ((stripChars l).reverse.dropWhile Char.isWhitespace).reverse := by
    unfold stripChars
    rw [show ((((l.dropWhile Char.isWhitespace).reverse.dropWhile
        Char.isWhitespace).reverse).dropWhile Char.isWhitespace)
        = ((l.dropWhile Char.isWhitespace).reverse.dropWhile
          Char.isWhitespace).reverse from stripChars_dropWhile l]
  rw [h1]
  unfold stripChars
  rw [List.reverse_reverse, dropWhile_idem]

theorem stripChars_append_ws (l : List Char) (c : Char)
    (hc : c.isWhitespace = true) : stripChars (l ++ [c]) = stripChars l := by
  unfold stripChars
  rw [List.dropWhile_append]
  cases h : (l.dropWhile Char.isWhitespace).isEmpty with
  | true =>
    rw [List.isEmpty_iff] at h
    simp [h, List.dropWhile_cons, hc]
  | false =>
    simp only [Bool.false_eq_true, if_false]
    rw [List.reverse_append]
    simp [List.dropWhile_cons, hc]

theorem pyStrip_idem (s : String) : pyStrip (pyStrip s) = pyStrip s := by
  apply String.ext
  show stripChars (stripChars s.data) = stripChars s.data
  exact stripChars_idem s.data

theorem pyStrip_append_space (s : String) : pyStrip (s ++ " ") = pyStrip s := by
  apply String.ext
  show stripChars (s ++ " ").data = stripChars s.data
  rw [String.data_append]
  exact stripChars_append_ws s.data ' ' rfl

theorem pyEndsWith_append_newline (s : String) :
    pyEndsWith (s ++ "\n") "\n" = true := by
  simp [pyEndsWith, String.data_append, show ("\n" : String).data = ['\n'] from rfl,
    List.isSuffixOf, List.isPrefixOf]

theorem concatTrail_eq_joinSpace (l : List String) (h : l ≠ []) :
    concatTrail l = joinSpace l ++ " " := by
  induction l with
  | nil => exact absurd rfl h
  | cons t ts ih =>
    cases ts with
    | nil => simp [concatTrail, joinSpace, String.append_empty]
    | cons u us =>
      show t ++ " " ++ concatTrail (u :: us) = joinSpace (t :: u :: us) ++ " "
      rw [ih (by simp)]
      show t ++ " " ++ (joinSpace (u :: us) ++ " ")
        = t ++ " " ++ joinSpace (u :: us) ++ " "
      simp [String.append_assoc]

/-! ### Characterization of the per-word chunk list -/

theorem addSpeakerSegment_chunks (s : AlignState) :
    (addSpeakerSegment s).chunks = s.chunks := by
  unfold addSpeakerSegment
  split
  · split <;> rfl
  · rfl

theorem addSpeakerSegment_currentSpeaker (s : AlignState) :
    (addSpeakerSegment s).currentSpeaker = s.currentSpeaker := by
  unfold addSpeakerSegment
  split
  · split <;> rfl
  · rfl

theorem processInterval_chunks (words : List Word) (s : AlignState)
    (iv : SpeechInterval) :
    (processInterval words s iv).chunks
      = s.chunks ++ (words.filter fun w => decide (wordIn w iv)).map
          (mkChunk iv.speaker) := by
  unfold processInterval
  dsimp only
  split
  · rw [addSpeakerSegment_chunks]
  · rfl

theorem foldl_chunks (words : List Word) (intervals : List SpeechInterval)
    (s : AlignState) :
    (intervals.foldl (processInterval words) s).chunks
      = s.chunks ++ chunksSpec words intervals := by
  induction intervals generalizing s with
  | nil => simp [chunksSpec]
  | cons iv ivs ih =>
    rw [List.foldl_cons, ih, chunksSpec, processInterval_chunks,
      List.append_assoc]

theorem diarChunks_eq_chunksSpec (words : List Word)
    (intervals : List SpeechInterval) :
    diarChunks words intervals = chunksSpec words intervals := by
  unfold diarChunks runDiar
  rw [addSpeakerSegment_chunks, foldl_chunks]
  rfl

theorem mem_chunksSpec {words : List Word} {intervals : List SpeechInterval}
    {c : Chunk} :
    c ∈ chunksSpec words intervals
      ↔ ∃ iv ∈ intervals, ∃ w ∈ words, wordIn w iv ∧ c = mkChunk iv.speaker w := by
  induction intervals with
  | nil => simp [chunksSpec]
  | cons iv ivs ih =>
    simp only [chunksSpec, List.mem_append, List.mem_map, List.mem_filter,
      decide_eq_true_eq, ih, List.mem_cons]
    constructor
    · rintro (⟨w, ⟨hw, hin⟩, hc⟩ | ⟨iv', hiv', hrest⟩)
      · exact ⟨iv, Or.inl rfl, w, hw, hin, hc.symm⟩
      · exact ⟨iv', Or.inr hiv', hrest⟩
    · rintro ⟨iv', hiv' | hiv', w, hw, hin, hc⟩
      · subst hiv'
        exact Or.inl ⟨w, ⟨hw, hin⟩, hc.symm⟩
      · exact Or.inr ⟨iv', hiv', w, hw, hin, hc⟩

/-! ### The aligner output depends on the word list only through the
per-interval containment filters -/

theorem foldl_congr_filter (words words2 : List Word)
    (intervals : List SpeechInterval) (s : AlignState)
    (h : ∀ iv ∈ intervals,
      (words.filter fun w => decide (wordIn w iv))
        = words2.filter fun w => decide (wordIn w iv)) :
    intervals.foldl (processInterval words) s
      = intervals.foldl (processInterval words2) s := by
  induction intervals generalizing s with
  | nil => rfl
  | cons iv ivs ih =>
    rw [List.foldl_cons, List.foldl_cons]
    have h1 : processInterval words s iv = processInterval words2 s iv := by
      unfold processInterval
      rw [h iv (by simp)]
    rw [h1]
    exact ih _ fun iv' hm => h iv' (by simp [hm])

/-! ### Simulation between the accumulated text and the line list -/

theorem renderLines_append_single (ls : List (String × String))
    (p : String × String) :
    renderLines (ls ++ [p]) = renderLines ls ++ (p.1 ++ ": " ++ p.2 ++ "\n") := by
  induction ls with
  | nil => simp [renderLines, String.empty_append, String.append_empty]
  | cons q qs ih =>
    show q.1 ++ ": " ++ q.2 ++ "\n" ++ renderLines (qs ++ [p])
      = q.1 ++ ": " ++ q.2 ++ "\n" ++ renderLines qs ++ (p.1 ++ ": " ++ p.2 ++ "\n")
    rw [ih]
    simp [String.append_assoc]

theorem renderLines_ends (ls : List (String × String)) (h : ls ≠ []) :
    ∃ t, renderLines ls = t ++ "\n" := by
  induction ls with
  | nil => exact absurd rfl h
  | cons p ps ih =>
    cases ps with
    | nil =>
      refine ⟨p.1 ++ ": " ++ p.2, ?_⟩
      show p.1 ++ ": " ++ p.2 ++ "\n" ++ renderLines [] = p.1 ++ ": " ++ p.2 ++ "\n"
      rw [show renderLines [] = "" from rfl, String.append_empty]
    | cons q qs =>
      obtain ⟨t, ht⟩ := ih (by simp)
      refine ⟨p.1 ++ ": " ++ p.2 ++ "\n" ++ t, ?_⟩
      show p.1 ++ ": " ++ p.2 ++ "\n" ++ renderLines (q :: qs)
        = p.1 ++ ": " ++ p.2 ++ "\n" ++ t ++ "\n"
      rw [ht]
      simp [String.append_assoc]

theorem renderLines_endsWith (ls : List (String × String)) (h : ls ≠ []) :
    pyEndsWith (renderLines ls) "\n" = true := by
  obtain ⟨t, ht⟩ := renderLines_ends ls h
  rw [ht]
  exact pyEndsWith_append_newline t

theorem flush_sim (s : LinesState) :
    addSpeakerSegment (toAlign s) = toAlign (flushLines s) := by
  unfold addSpeakerSegment flushLines
  by_cases hb : s.buffer ≠ []
  · rw [if_pos (show (toAlign s).buffer ≠ [] from hb), if_pos hb]
    by_cases hseg : pyStrip (joinSpace (s.buffer.map Word.text)) ≠ ""
    · rw [if_pos (show pyStrip (joinSpace ((toAlign s).buffer.map Word.text)) ≠ "" from hseg),
        if_pos hseg]
      have hcond : ¬ ((toAlign s).text ≠ "" ∧ ¬ pyEndsWith (toAlign s).text "\n" = true) := by
        cases hls : s.lines with
        | nil =>
          intro hand
          exact hand.1 (by simp [toAlign, hls, renderLines])
        | cons p ps =>
          intro hand
          exact hand.2 (renderLines_endsWith _ (by simp [hls]))
      rw [if_neg hcond]
      show ({ toAlign s with
          text := (toAlign s).text ++ speakerRepr (toAlign s).currentSpeaker ++ ": "
            ++ pyStrip (joinSpace ((toAlign s).buffer.map Word.text)) ++ "\n"
          buffer := [] } : AlignState)
        = toAlign { s with
            lines := s.lines ++ [(speakerRepr s.currentSpeaker,
              pyStrip (joinSpace (s.buffer.map Word.text)))]
            buffer := [] }
      show AlignState.mk s.currentSpeaker []
          (renderLines s.lines ++ speakerRepr s.currentSpeaker ++ ": "
            ++ pyStrip (joinSpace (s.buffer.map Word.text)) ++ "\n") s.chunks
        = AlignState.mk s.currentSpeaker []
          (renderLines (s.lines ++ [(speakerRepr s.currentSpeaker,
            pyStrip (joinSpace (s.buffer.map Word.text)))])) s.chunks
      rw [renderLines_append_single]
      simp [String.append_assoc]
    · rw [if_neg (show ¬ pyStrip (joinSpace ((toAlign s).buffer.map Word.text)) ≠ "" from hseg),
        if_neg hseg]
      rfl
  · rw [if_neg (show ¬ (toAlign s).buffer ≠ [] from hb), if_neg hb]

theorem step_sim (words : List Word) (s : LinesState) (iv : SpeechInterval) :
    processInterval words (toAlign s) iv = toAlign (stepLines words s iv) := by
  unfold processInterval stepLines
  dsimp only
  by_cases h : s.currentSpeaker.isSome ∧ s.currentSpeaker ≠ some iv.speaker
  · rw [if_pos (show (toAlign s).currentSpeaker.isSome
        ∧ (toAlign s).currentSpeaker ≠ some iv.speaker from h), if_pos h, flush_sim]
    rfl
  · rw [if_neg (show ¬ ((toAlign s).currentSpeaker.isSome
        ∧ (toAlign s).currentSpeaker ≠ some iv.speaker) from h), if_neg h]
    rfl

theorem foldl_sim (words : List Word) (intervals : List SpeechInterval)
    (s : LinesState) :
    intervals.foldl (processInterval words) (toAlign s)
      = toAlign (intervals.foldl (stepLines words) s) := by
  induction intervals generalizing s with
  | nil => rfl
  | cons iv ivs ih =>
    rw [List.foldl_cons, List.foldl_cons, step_sim]
    exact ih _

theorem runDiar_eq_runLines (words : List Word) (intervals : List SpeechInterval) :
    runDiar words intervals = toAlign (runLines words intervals) := by
  unfold runDiar runLines
  rw [show initState = toAlign initLines from rfl, foldl_sim, flush_sim]

theorem diarTranscript_eq_render (words : List Word)
    (intervals : List SpeechInterval) :
    diarTranscript words intervals = renderLines (diarLines words intervals) := by
  unfold diarTranscript diarLines
  rw [runDiar_eq_runLines]
  rfl

/-! ### Every emitted line carries a non-empty, stripped segment text -/

theorem flushLines_lines_sound (s : LinesState)
    (hs : ∀ p ∈ s.lines, p.2 ≠ "" ∧ pyStrip p.2 = p.2) :
    ∀ p ∈ (flushLines s).lines, p.2 ≠ "" ∧ pyStrip p.2 = p.2 := by
  unfold flushLines
  split
  · split
    · intro p hp
      rcases List.mem_append.mp hp with h | h
      · exact hs p h
      · rcases List.mem_singleton.mp h with rfl
        constructor
        · assumption
        · exact pyStrip_idem _
    · exact hs
  · exact hs

theorem stepLines_lines_sound (words : List Word) (s : LinesState)
    (iv : SpeechInterval)
    (hs : ∀ p ∈ s.lines, p.2 ≠ "" ∧ pyStrip p.2 = p.2) :
    ∀ p ∈ (stepLines words s iv).lines, p.2 ≠ "" ∧ pyStrip p.2 = p.2 := by
  unfold stepLines
  dsimp only
  split
  · exact flushLines_lines_sound s hs
  · exact hs

theorem diarLines_sound (words : List Word) (intervals : List SpeechInterval) :
    ∀ p ∈ diarLines words intervals, p.2 ≠ "" ∧ pyStrip p.2 = p.2 := by
  unfold diarLines runLines
  apply flushLines_lines_sound
  have h : ∀ (ivs : List SpeechInterval) (s : LinesState),
      (∀ p ∈ s.lines, p.2 ≠ "" ∧ pyStrip p.2 = p.2) →
      ∀ p ∈ (ivs.foldl (stepLines words) s).lines, p.2 ≠ "" ∧ pyStrip p.2 = p.2 := by
    intro ivs
    induction ivs with
    | nil => intro s hs; exact hs
    | cons iv ivs ih =>
      intro s hs
      rw [List.foldl_cons]
      exact ih _ (stepLines_lines_sound words s iv hs)
  exact h intervals initLines (by simp [initLines])

/-! ### When is a stripped space-join empty? -/

theorem stripChars_eq_nil_iff (l : List Char) :
    stripChars l = [] ↔ ∀ c ∈ l, c.isWhitespace = true := by
  unfold stripChars
  rw [List.reverse_eq_nil_iff, List.dropWhile_eq_nil_iff]
  simp only [List.mem_reverse]
  constructor
  · intro h c hc
    have hc2 : c ∈ l.takeWhile Char.isWhitespace ++ l.dropWhile Char.isWhitespace := by
      rw [List.takeWhile_append_dropWhile]
      exact hc
    rcases List.mem_append.mp hc2 with h1 | h1
    · exact List.mem_takeWhile_imp h1
    · exact h c h1
  · intro h c hc
    exact h c ((List.dropWhile_suffix _).subset hc)

theorem pyStrip_empty_iff (s : String) :
    pyStrip s = "" ↔ ∀ c ∈ s.data, c.isWhitespace = true := by
  rw [← stripChars_eq_nil_iff]
  constructor
  · intro h
    have h2 : (pyStrip s).data = ("" : String).data := by rw [h]
    exact h2
  · intro h
    exact String.ext h

theorem joinSpace_ws_iff (ls : List String) :
    (∀ c ∈ (joinSpace ls).data, c.isWhitespace = true)
      ↔ ∀ t ∈ ls, ∀ c ∈ t.data, c.isWhitespace = true := by
  induction ls with
  | nil => simp [joinSpace]
  | cons t ts ih =>
    cases ts with
    | nil =>
      show (∀ c ∈ t.data, c.isWhitespace = true) ↔ _
      simp
    | cons u us =>
      show (∀ c ∈ (t ++ " " ++ joinSpace (u :: us)).data, c.isWhitespace = true) ↔ _
      simp only [String.data_append, List.mem_append,
        show (" " : String).data = [' '] from rfl, List.mem_singleton]
      constructor
      · intro h t' ht' c hc
        rcases List.mem_cons.mp ht' with rfl | ht'
        · exact h c (Or.inl (Or.inl hc))
        · exact ih.mp (fun c hc => h c (Or.inr hc)) t' ht' c hc
      · intro h c hc
        rcases hc with (hc | hc) | hc
        · exact h t (List.mem_cons_self _ _) c hc
        · rw [hc]
          rfl
        · exact ih.mpr (fun t' ht' => h t' (List.mem_cons_of_mem _ ht')) c hc

theorem wordsJoin_empty_iff (ls : List Word) :
    pyStrip (joinSpace (ls.map Word.text)) = ""
      ↔ ∀ w ∈ ls, ∀ c ∈ w.text.data, c.isWhitespace = true := by
  rw [pyStrip_empty_iff, joinSpace_ws_iff]
  constructor
  · intro h w hw c hc
    exact h w.text (List.mem_map_of_mem _ hw) c hc
  · intro h t ht c hc
    obtain ⟨w, hw, rfl⟩ := List.mem_map.mp ht
    exact h w hw c hc

theorem wordsJoin_ne_mono {l1 l2 : List Word} (hsub : ∀ w ∈ l1, w ∈ l2)
    (h : pyStrip (joinSpace (l1.map Word.text)) ≠ "") :
    pyStrip (joinSpace (l2.map Word.text)) ≠ "" := by
  intro h0
  apply h
  rw [wordsJoin_empty_iff] at h0 ⊢
  exact fun w hw => h0 w (hsub w hw)

theorem wordsJoin_ne_nil {l : List Word}
    (h : pyStrip (joinSpace (l.map Word.text)) ≠ "") : l ≠ [] := by
  intro h0
  subst h0
  exact h rfl

/-! ### Line emission is append-only, and a buffered speaker run eventually
flushes exactly one line before any later line -/

theorem flushLines_lines_mono (s : LinesState) :
    ∃ l, (flushLines s).lines = s.lines ++ l := by
  unfold flushLines
  split
  · split
    · exact ⟨_, rfl⟩
    · exact ⟨[], (List.append_nil _).symm⟩
  · exact ⟨[], (List.append_nil _).symm⟩

theorem stepLines_lines_mono (words : List Word) (s : LinesState)
    (iv : SpeechInterval) :
    ∃ l, (stepLines words s iv).lines = s.lines ++ l := by
  unfold stepLines
  dsimp only
  split
  · exact flushLines_lines_mono s
  · exact ⟨[], (List.append_nil _).symm⟩

theorem foldl_lines_mono (words : List Word) (intervals : List SpeechInterval)
    (s : LinesState) :
    ∃ l, (intervals.foldl (stepLines words) s).lines = s.lines ++ l := by
  induction intervals generalizing s with
  | nil => exact ⟨[], (List.append_nil _).symm⟩
  | cons iv ivs ih =>
    rw [List.foldl_cons]
    obtain ⟨l1, h1⟩ := stepLines_lines_mono words s iv
    obtain ⟨l2, h2⟩ := ih (stepLines words s iv)
    exact ⟨l1 ++ l2, by rw [h2, h1, List.append_assoc]⟩

theorem flushFoldl_lines_mono (words : List Word)
    (intervals : List SpeechInterval) (s : LinesState) :
    ∃ l, (flushLines (intervals.foldl (stepLines words) s)).lines
      = s.lines ++ l := by
  obtain ⟨l1, h1⟩ := foldl_lines_mono words intervals s
  obtain ⟨l2, h2⟩ := flushLines_lines_mono (intervals.foldl (stepLines words) s)
  exact ⟨l1 ++ l2, by rw [h2, h1, List.append_assoc]⟩

/-- While the current speaker keeps talking the buffer only grows; the first
line emitted after the state `s` is the flush of `s`'s (non-silent) run,
labelled with `s`'s current speaker. -/
theorem run_flushes_once (words : List Word) (sp : String) :
    ∀ (post : List SpeechInterval) (s : LinesState),
      s.currentSpeaker = some sp →
      pyStrip (joinSpace (s.buffer.map Word.text)) ≠ "" →
      ∃ t l, (flushLines (post.foldl (stepLines words) s)).lines
          = s.lines ++ (sp, t) :: l ∧ t ≠ "" := by
  intro post
  induction post with
  | nil =>
    intro s hcs hB
    refine ⟨pyStrip (joinSpace (s.buffer.map Word.text)), [], ?_, hB⟩
    rw [List.foldl_nil]
    unfold flushLines
    rw [if_pos (wordsJoin_ne_nil hB), if_pos hB]
    dsimp only
    rw [hcs]
    rfl
  | cons iv rest ih =>
    intro s hcs hB
    rw [List.foldl_cons]
    by_cases hivs : iv.speaker = sp
    · have hstep : stepLines words s iv
          = ⟨some iv.speaker,
             s.buffer ++ words.filter fun w => decide (wordIn w iv),
             s.lines,
             s.chunks ++ (words.filter fun w => decide (wordIn w iv)).map
               (mkChunk iv.speaker)⟩ := by
        unfold stepLines
        dsimp only
        rw [if_neg (fun h => h.2 (by rw [hcs, hivs]))]
      obtain ⟨t, l, hres, ht⟩ := ih (stepLines words s iv)
        (by rw [hstep, hivs])
        (by
          rw [hstep]
          exact wordsJoin_ne_mono (fun w hw => List.mem_append_left _ hw) hB)
      refine ⟨t, l, ?_, ht⟩
      rw [hres, hstep]
    · have hstep : stepLines words s iv
          = ⟨some iv.speaker,
             words.filter fun w => decide (wordIn w iv),
             s.lines ++ [(sp, pyStrip (joinSpace (s.buffer.map Word.text)))],
             s.chunks ++ (words.filter fun w => decide (wordIn w iv)).map
               (mkChunk iv.speaker)⟩ := by
        unfold stepLines
        dsimp only
        rw [if_pos ⟨by rw [hcs]; rfl,
          by rw [hcs]; exact fun h => hivs (Option.some.inj h).symm⟩]
        unfold flushLines
        rw [if_pos (wordsJoin_ne_nil hB), if_pos hB]
        dsimp only
        rw [hcs]
        rfl
      obtain ⟨l, hl⟩ := flushFoldl_lines_mono words rest (stepLines words s iv)
      refine ⟨pyStrip (joinSpace (s.buffer.map Word.text)), l, ?_, hB⟩
      rw [hl, hstep]
      simp [List.append_assoc]

/-! ### Claim theorems -/

/-- C8: with diarization on and an empty SpeakerTimeline, for every
WordTimeline the returned transcript is the empty string and the per-word
output list is empty. -/
theorem c8_empty_speaker_timeline (words : List Word) :
    (transcribeAlign true words []).text = ""
    ∧ (transcribeAlign true words []).chunks = [] :=
  ⟨rfl, rfl⟩

/-- C2 counterexample: with overlapping intervals `[0,1]×A` and `[0,1]×B`,
the single word `a` (fully contained in both) appears twice in the per-word
output list — once per containing interval — refuting "each word appears at
most once ... even when intervals overlap". -/
theorem c2_overlap_duplicates_cex :
    diarChunks [⟨"a", 0, 1, 1⟩] [⟨0, 1, "A"⟩, ⟨0, 1, "B"⟩]
      = [⟨"a", (0, 1), 1, some "A"⟩, ⟨"a", (0, 1), 1, some "B"⟩]
    ∧ (diarChunks [⟨"a", 0, 1, 1⟩] [⟨0, 1, "A"⟩, ⟨0, 1, "B"⟩]).countP
        (fun c => c.text == "a") = 2 := by
  decide

/-- C2 amended: each word is assigned to every interval that fully contains
it, in interval order, with no first-match dedup: the per-word output list is
exactly the interval-by-interval concatenation of the contained words, so a
word contained in k intervals appears k times. -/
theorem c2_one_chunk_per_containing_interval (words : List Word)
    (intervals : List SpeechInterval) :
    diarChunks words intervals = chunksSpec words intervals :=
  diarChunks_eq_chunksSpec words intervals

/-- C3 counterexample: on the first spec scenario the returned transcript is
not `"SPEAKER_00: a b\n"` — line 148 of `app.py` strips the trailing
newline before responding. -/
theorem c3_trailing_newline_cex :
    (transcribeAlign true [wordA, wordB] [⟨0, 1, "SPEAKER_00"⟩]).text
      ≠ "SPEAKER_00: a b\n" := by
  decide

/-- C3 amended: on the scenario inputs (`wordA = {"a",0,0.5,0.9}`,
`wordB = {"b",0.6,1,0.8}`) both aligned words are tagged `SPEAKER_00` and the
returned transcripts are `"SPEAKER_00: a b"` and
`"SPEAKER_00: a\nSPEAKER_01: b"` — without the trailing newline. -/
theorem c3_scenario_transcripts :
    wordA = ⟨"a", 0, 0.5, 0.9⟩ ∧ wordB = ⟨"b", 0.6, 1, 0.8⟩
    ∧ qHalf = 0.5 ∧ qSixTenths = 0.6
    ∧ (transcribeAlign true [wordA, wordB] [⟨0, 1, "SPEAKER_00"⟩]).text
        = "SPEAKER_00: a b"
    ∧ (transcribeAlign true [wordA, wordB] [⟨0, 1, "SPEAKER_00"⟩]).chunks
        = [mkChunk "SPEAKER_00" wordA, mkChunk "SPEAKER_00" wordB]
    ∧ (transcribeAlign true [wordA, wordB]
        [⟨0, qHalf, "SPEAKER_00"⟩, ⟨qSixTenths, 1, "SPEAKER_01"⟩]).text
        = "SPEAKER_00: a\nSPEAKER_01: b" := by
  have hh : qHalf = 0.5 := by
    rw [qHalf, Rat.mk'_eq_divInt, Rat.divInt_eq_div]; norm_num
  have hs : qSixTenths = 0.6 := by
    rw [qSixTenths, Rat.mk'_eq_divInt, Rat.divInt_eq_div]; norm_num
  have hn : qNineTenths = 0.9 := by
    rw [qNineTenths, Rat.mk'_eq_divInt, Rat.divInt_eq_div]; norm_num
  have he : qEightTenths = 0.8 := by
    rw [qEightTenths, Rat.mk'_eq_divInt, Rat.divInt_eq_div]; norm_num
  refine ⟨?_, ?_, hh, hs, by decide, by decide, by decide⟩
  · rw [wordA, hh, hn]
  · rw [wordB, hs, he]

/-- C5: with diarization off the returned transcript is the space-joined,
stripped concatenation of all word texts in original order, and every
per-word output entry has no speaker. -/
theorem c5_no_diarization (words : List Word) (intervals : List SpeechInterval) :
    (transcribeAlign false words intervals).text
      = pyStrip (joinSpace (words.map Word.text))
    ∧ ∀ c ∈ (transcribeAlign false words intervals).chunks, c.speaker = none := by
  constructor
  · show pyStrip (fullTextFromWhisper words) = pyStrip (joinSpace (words.map Word.text))
    unfold fullTextFromWhisper
    cases hw : words.map Word.text with
    | nil => rfl
    | cons t ts =>
      rw [concatTrail_eq_joinSpace _ (by simp), pyStrip_append_space,
        pyStrip_idem]
  · intro c hc
    have hc2 : c ∈ words.map mkChunkPlain := hc
    obtain ⟨w, _, hc'⟩ := List.mem_map.mp hc2
    rw [← hc']
    rfl

/-- Witness for C5 at a concrete input. -/
theorem c5_no_diarization_witness :
    (transcribeAlign false [wordA, wordB] []).text
      = pyStrip (joinSpace ["a", "b"])
    ∧ mkChunkPlain wordA ∈ (transcribeAlign false [wordA, wordB] []).chunks
    ∧ (mkChunkPlain wordA).speaker = none :=
  ⟨(c5_no_diarization [wordA, wordB] []).1, by decide,
    (c5_no_diarization [wordA, wordB] []).2 (mkChunkPlain wordA) (by decide)⟩

/-- C6: in both modes, every per-word output entry carries the text, timing
and probability of a source word verbatim. -/
theorem c6_fields_verbatim (diarize : Bool) (words : List Word)
    (intervals : List SpeechInterval) :
    ∀ c ∈ (transcribeAlign diarize words intervals).chunks,
      ∃ w ∈ words, c.text = w.text ∧ c.timestamp = (w.start, w.«end»)
        ∧ c.score = w.probability := by
  intro c hc
  cases diarize with
  | false =>
    have hc2 : c ∈ words.map mkChunkPlain := hc
    obtain ⟨w, hw, hc'⟩ := List.mem_map.mp hc2
    exact ⟨w, hw, by rw [← hc']; exact ⟨rfl, rfl, rfl⟩⟩
  | true =>
    have hc2 : c ∈ diarChunks words intervals := hc
    rw [diarChunks_eq_chunksSpec] at hc2
    obtain ⟨iv, _, w, hw, _, hc'⟩ := mem_chunksSpec.mp hc2
    exact ⟨w, hw, by rw [hc']; exact ⟨rfl, rfl, rfl⟩⟩

/-- Witness for C6 at a concrete input. -/
theorem c6_fields_verbatim_witness :
    mkChunk "SPEAKER_00" wordA
      ∈ (transcribeAlign true [wordA, wordB] [⟨0, 1, "SPEAKER_00"⟩]).chunks
    ∧ ∃ w ∈ [wordA, wordB],
        (mkChunk "SPEAKER_00" wordA).text = w.text
        ∧ (mkChunk "SPEAKER_00" wordA).timestamp = (w.start, w.«end»)
        ∧ (mkChunk "SPEAKER_00" wordA).score = w.probability :=
  ⟨by decide,
    c6_fields_verbatim true [wordA, wordB] [⟨0, 1, "SPEAKER_00"⟩]
      (mkChunk "SPEAKER_00" wordA) (by decide)⟩

/-- C1: under diarization a chunk is produced for a word and an interval
exactly when `interval.start ≤ word.start` and `word.end ≤ interval.end`,
tagged with that interval's label; and for a word fully inside exactly one
interval, every output entry carrying its text and timing has that
interval's label as its speaker. -/
theorem c1_selection_iff_containment (words : List Word)
    (intervals : List SpeechInterval) :
    (∀ c, c ∈ diarChunks words intervals
        ↔ ∃ iv ∈ intervals, ∃ w ∈ words, wordIn w iv ∧ c = mkChunk iv.speaker w)
    ∧ ∀ w ∈ words, ∀ iv0 ∈ intervals, wordIn w iv0 →
        (∀ iv ∈ intervals, wordIn w iv → iv = iv0) →
        mkChunk iv0.speaker w ∈ diarChunks words intervals
          ∧ ∀ c ∈ diarChunks words intervals,
              c.text = w.text → c.timestamp = (w.start, w.«end») →
              c.speaker = some iv0.speaker := by
  have hmem : ∀ c, c ∈ diarChunks words intervals
      ↔ ∃ iv ∈ intervals, ∃ w ∈ words, wordIn w iv ∧ c = mkChunk iv.speaker w := by
    intro c
    rw [diarChunks_eq_chunksSpec]
    exact mem_chunksSpec
  refine ⟨hmem, ?_⟩
  intro w hw iv0 hiv0 hin huniq
  constructor
  · exact (hmem _).mpr ⟨iv0, hiv0, w, hw, hin, rfl⟩
  · intro c hc _ hts
    obtain ⟨iv, hiv, w', _, hin', hc'⟩ := (hmem c).mp hc
    subst hc'
    have hstart : w'.start = w.start := by
      have h := congrArg Prod.fst hts
      simpa [mkChunk] using h
    have hend : w'.«end» = w.«end» := by
      have h := congrArg Prod.snd hts
      simpa [mkChunk] using h
    have hwin : wordIn w iv := ⟨hstart ▸ hin'.1, hend ▸ hin'.2⟩
    simp [mkChunk, huniq iv hiv hwin]

/-- Witness for C1 at a concrete input. -/
theorem c1_selection_witness :
    wordIn wordA ⟨0, 1, "SPEAKER_00"⟩
    ∧ mkChunk "SPEAKER_00" wordA ∈ diarChunks [wordA] [⟨0, 1, "SPEAKER_00"⟩] :=
  ⟨by decide,
    ((c1_selection_iff_containment [wordA] [⟨0, 1, "SPEAKER_00"⟩]).2
      wordA (by decide) ⟨0, 1, "SPEAKER_00"⟩ (by decide) (by decide)
      (by decide)).1⟩

/-- C4: a word fully contained in no interval is omitted under diarization
from both the per-word output list and the grouped transcript: removing it
from the WordTimeline leaves the whole output unchanged. -/
theorem c4_uncontained_word_omitted (words1 words2 : List Word) (w : Word)
    (intervals : List SpeechInterval)
    (h : ∀ iv ∈ intervals, ¬ wordIn w iv) :
    transcribeAlign true (words1 ++ w :: words2) intervals
      = transcribeAlign true (words1 ++ words2) intervals := by
  have hfil : ∀ iv ∈ intervals,
      ((words1 ++ w :: words2).filter fun x => decide (wordIn x iv))
        = (words1 ++ words2).filter fun x => decide (wordIn x iv) := by
    intro iv hiv
    rw [List.filter_append, List.filter_append, List.filter_cons]
    simp [h iv hiv]
  have hrun : runDiar (words1 ++ w :: words2) intervals
      = runDiar (words1 ++ words2) intervals := by
    unfold runDiar
    rw [foldl_congr_filter _ _ intervals initState hfil]
  simp only [transcribeAlign, diarTranscript, diarChunks, hrun, if_true]

/-- Witness for C4 at a concrete input: the boundary-spanning word `x`
drops out of the output. -/
theorem c4_uncontained_word_witness :
    (∀ iv ∈ [(⟨0, qHalf, "SPEAKER_00"⟩ : SpeechInterval),
        ⟨qHalf, 1, "SPEAKER_01"⟩], ¬ wordIn wordX iv)
    ∧ transcribeAlign true [wordA, wordX]
        [⟨0, qHalf, "SPEAKER_00"⟩, ⟨qHalf, 1, "SPEAKER_01"⟩]
      = transcribeAlign true [wordA]
          [⟨0, qHalf, "SPEAKER_00"⟩, ⟨qHalf, 1, "SPEAKER_01"⟩] :=
  ⟨by decide,
    c4_uncontained_word_omitted [wordA] [] wordX
      [⟨0, qHalf, "SPEAKER_00"⟩, ⟨qHalf, 1, "SPEAKER_01"⟩] (by decide)⟩

/-- C9: the aligner output is a pure function of the WordTimeline, the
SpeakerTimeline and the diarization flag: two successful requests on the
same inputs return identical results regardless of the shared pipeline
state each run started from. -/
theorem c9_deterministic (g1 g2 l1 l2 d : Bool) (words : List Word)
    (intervals : List SpeechInterval) (r1 r2 : TranscribeResult)
    (g1' g2' : Bool)
    (h1 : handleRequest g1 l1 d words intervals = (ReqOutcome.ok r1, g1'))
    (h2 : handleRequest g2 l2 d words intervals = (ReqOutcome.ok r2, g2')) :
    r1 = r2 := by
  cases d <;> cases g1 <;> cases g2 <;> cases l1 <;> cases l2 <;>
    simp_all [handleRequest]

/-- Witness for C9: two runs from different global pipeline states. -/
theorem c9_deterministic_witness :
    handleRequest true true true [wordA] [⟨0, 1, "SPEAKER_00"⟩]
      = (ReqOutcome.ok (transcribeAlign true [wordA] [⟨0, 1, "SPEAKER_00"⟩]), true)
    ∧ handleRequest false true true [wordA] [⟨0, 1, "SPEAKER_00"⟩]
      = (ReqOutcome.ok (transcribeAlign true [wordA] [⟨0, 1, "SPEAKER_00"⟩]), true)
    ∧ transcribeAlign true [wordA] [⟨0, 1, "SPEAKER_00"⟩]
      = transcribeAlign true [wordA] [⟨0, 1, "SPEAKER_00"⟩] :=
  ⟨rfl, rfl,
    c9_deterministic true false true true true [wordA] [⟨0, 1, "SPEAKER_00"⟩]
      _ _ true true rfl rfl⟩

/-- C10: the grouped transcript is exactly the rendering of its
(speaker, segment text) lines, and every emitted line has a non-empty,
already-stripped segment text — so no line is a bare `label: `. -/
theorem c10_no_empty_segment_lines (words : List Word)
    (intervals : List SpeechInterval) :
    diarTranscript words intervals = renderLines (diarLines words intervals)
    ∧ ∀ p ∈ diarLines words intervals, p.2 ≠ "" ∧ pyStrip p.2 = p.2 :=
  ⟨diarTranscript_eq_render words intervals, diarLines_sound words intervals⟩

/-- Witness for C10 at a concrete input. -/
theorem c10_no_empty_segment_witness :
    ("A", "hi") ∈ diarLines [wordHi] [⟨0, 1, "A"⟩]
    ∧ ("A", "hi").2 ≠ "" ∧ pyStrip ("A", "hi").2 = ("A", "hi").2 :=
  ⟨by decide,
    (c10_no_empty_segment_lines [wordHi] [⟨0, 1, "A"⟩]).2 ("A", "hi") (by decide)⟩

/-- C7 counterexample: three intervals labelled A, B, A, each containing at
least one word, yet the transcript carries only ONE line for speaker A: the
word inside the third interval has empty text, so its segment is
suppressed by `add_speaker_segment`. -/
theorem c7_interrupted_speaker_cex :
    (wordIn wordHi (⟨0, 1, "A"⟩ : SpeechInterval)
      ∧ wordIn wordYo (⟨2, 3, "B"⟩ : SpeechInterval)
      ∧ wordIn wordNil (⟨4, 5, "A"⟩ : SpeechInterval))
    ∧ diarTranscript [wordHi, wordYo, wordNil]
        [⟨0, 1, "A"⟩, ⟨2, 3, "B"⟩, ⟨4, 5, "A"⟩] = "A: hi\nB: yo\n"
    ∧ (diarLines [wordHi, wordYo, wordNil]
        [⟨0, 1, "A"⟩, ⟨2, 3, "B"⟩, ⟨4, 5, "A"⟩]).countP
        (fun p => p.1 == "A") = 1 := by
  decide

/-- C7 amended: for every SpeakerTimeline containing two intervals with the
same speaker label separated by an interval of a different speaker (with
arbitrary intervals before and after the pattern), where the words selected
for each of the three pattern intervals have non-empty stripped joined text,
the grouped transcript contains two separate lines for that speaker around
the interrupting speaker's line, in encounter order: runs are never
coalesced across the interruption. -/
theorem c7_two_lines_for_interrupted_speaker (words : List Word)
    (pre post : List SpeechInterval) (i1 i2 i3 : SpeechInterval)
    (hsame : i3.speaker = i1.speaker) (hdiff : i2.speaker ≠ i1.speaker)
    (h1 : segText words i1 ≠ "") (h2 : segText words i2 ≠ "")
    (h3 : segText words i3 ≠ "") :
    ∃ l0 l3 tA tB,
      diarLines words (pre ++ i1 :: i2 :: i3 :: post)
        = l0 ++ (i1.speaker, tA) :: (i2.speaker, segText words i2)
            :: (i1.speaker, tB) :: l3
      ∧ tA ≠ "" ∧ tB ≠ ""
      ∧ diarTranscript words (pre ++ i1 :: i2 :: i3 :: post)
        = renderLines (l0 ++ (i1.speaker, tA)
            :: (i2.speaker, segText words i2) :: (i1.speaker, tB) :: l3) := by
  have h1' : pyStrip (joinSpace ((words.filter fun w =>
      decide (wordIn w i1)).map Word.text)) ≠ "" := h1
  have h2' : pyStrip (joinSpace ((words.filter fun w =>
      decide (wordIn w i2)).map Word.text)) ≠ "" := h2
  have h3' : pyStrip (joinSpace ((words.filter fun w =>
      decide (wordIn w i3)).map Word.text)) ≠ "" := h3
  have hb1 : (some i1.speaker : Option String) ≠ some i2.speaker := by
    intro hcontra
    exact hdiff (Option.some.inj hcontra).symm
  have hb2 : (some i2.speaker : Option String) ≠ some i3.speaker := by
    intro hcontra
    exact hdiff (by rw [Option.some.inj hcontra, hsame])
  obtain ⟨B1, L0, chA, hA⟩ : ∃ B L ch,
      stepLines words (pre.foldl (stepLines words) initLines) i1
        = ⟨some i1.speaker,
           B ++ (words.filter fun w => decide (wordIn w i1)), L, ch⟩ :=
    ⟨_, _, _, rfl⟩
  have hBjoin : pyStrip (joinSpace ((B1 ++ (words.filter fun w =>
      decide (wordIn w i1))).map Word.text)) ≠ "" :=
    wordsJoin_ne_mono (fun w hw => List.mem_append_right _ hw) h1'
  have hB2 : stepLines words
      ⟨some i1.speaker, B1 ++ (words.filter fun w => decide (wordIn w i1)),
        L0, chA⟩ i2
      = ⟨some i2.speaker, words.filter fun w => decide (wordIn w i2),
         L0 ++ [(i1.speaker, pyStrip (joinSpace ((B1 ++ (words.filter fun w =>
           decide (wordIn w i1))).map Word.text)))],
         chA ++ (words.filter fun w => decide (wordIn w i2)).map
           (mkChunk i2.speaker)⟩ := by
    unfold stepLines
    dsimp only
    rw [if_pos ⟨rfl, hb1⟩]
    unfold flushLines
    dsimp only
    rw [if_pos (wordsJoin_ne_nil hBjoin), if_pos hBjoin]
    rfl
  have hB3 : stepLines words
      ⟨some i2.speaker, words.filter fun w => decide (wordIn w i2),
        L0 ++ [(i1.speaker, pyStrip (joinSpace ((B1 ++ (words.filter fun w =>
          decide (wordIn w i1))).map Word.text)))],
        chA ++ (words.filter fun w => decide (wordIn w i2)).map
          (mkChunk i2.speaker)⟩ i3
      = ⟨some i3.speaker, words.filter fun w => decide (wordIn w i3),
         (L0 ++ [(i1.speaker, pyStrip (joinSpace ((B1 ++ (words.filter fun w =>
           decide (wordIn w i1))).map Word.text)))])
           ++ [(i2.speaker, segText words i2)],
         (chA ++ (words.filter fun w => decide (wordIn w i2)).map
           (mkChunk i2.speaker))
           ++ (words.filter fun w => decide (wordIn w i3)).map
             (mkChunk i3.speaker)⟩ := by
    unfold stepLines
    dsimp only
    rw [if_pos ⟨rfl, hb2⟩]
    unfold flushLines
    dsimp only
    rw [if_pos (wordsJoin_ne_nil h2'), if_pos h2']
    rfl
  have hfold : (pre ++ i1 :: i2 :: i3 :: post).foldl (stepLines words) initLines
      = post.foldl (stepLines words)
          (stepLines words (stepLines words (stepLines words
            (pre.foldl (stepLines words) initLines) i1) i2) i3) := by
    rw [List.foldl_append]
    rfl
  obtain ⟨tB, l3, hres, htB⟩ := run_flushes_once words i3.speaker post
      ⟨some i3.speaker, words.filter fun w => decide (wordIn w i3),
       (L0 ++ [(i1.speaker, pyStrip (joinSpace ((B1 ++ (words.filter fun w =>
         decide (wordIn w i1))).map Word.text)))])
         ++ [(i2.speaker, segText words i2)],
       (chA ++ (words.filter fun w => decide (wordIn w i2)).map
         (mkChunk i2.speaker))
         ++ (words.filter fun w => decide (wordIn w i3)).map
           (mkChunk i3.speaker)⟩
      rfl h3'
  have hlines : diarLines words (pre ++ i1 :: i2 :: i3 :: post)
      = L0 ++ (i1.speaker, pyStrip (joinSpace ((B1 ++ (words.filter fun w =>
          decide (wordIn w i1))).map Word.text)))
          :: (i2.speaker, segText words i2) :: (i1.speaker, tB) :: l3 := by
    unfold diarLines runLines
    rw [hfold, hA, hB2, hB3, hres, hsame]
    simp [List.append_assoc]
  exact ⟨L0, l3, _, tB, hlines, hBjoin, htB,
    by rw [diarTranscript_eq_render, hlines]⟩

/-- Witness for C7 amended at a concrete input (with empty context around
the pattern). -/
theorem c7_two_lines_witness :
    ((⟨4, 5, "A"⟩ : SpeechInterval).speaker
        = (⟨0, 1, "A"⟩ : SpeechInterval).speaker)
    ∧ (⟨2, 3, "B"⟩ : SpeechInterval).speaker
        ≠ (⟨0, 1, "A"⟩ : SpeechInterval).speaker
    ∧ segText [wordHi, wordYo, wordOk] ⟨0, 1, "A"⟩ ≠ ""
    ∧ segText [wordHi, wordYo, wordOk] ⟨2, 3, "B"⟩ ≠ ""
    ∧ segText [wordHi, wordYo, wordOk] ⟨4, 5, "A"⟩ ≠ ""
    ∧ ∃ l0 l3 tA tB,
        diarLines [wordHi, wordYo, wordOk]
            [⟨0, 1, "A"⟩, ⟨2, 3, "B"⟩, ⟨4, 5, "A"⟩]
          = l0 ++ ("A", tA)
              :: ("B", segText [wordHi, wordYo, wordOk] ⟨2, 3, "B"⟩)
              :: ("A", tB) :: l3
        ∧ tA ≠ "" ∧ tB ≠ ""
        ∧ diarTranscript [wordHi, wordYo, wordOk]
            [⟨0, 1, "A"⟩, ⟨2, 3, "B"⟩, ⟨4, 5, "A"⟩]
          = renderLines (l0 ++ ("A", tA)
              :: ("B", segText [wordHi, wordYo, wordOk] ⟨2, 3, "B"⟩)
              :: ("A", tB) :: l3) :=
  ⟨rfl, by decide, by decide, by decide, by decide,
    c7_two_lines_for_interrupted_speaker [wordHi, wordYo, wordOk] [] []
      ⟨0, 1, "A"⟩ ⟨2, 3, "B"⟩ ⟨4, 5, "A"⟩ rfl (by decide) (by decide)
      (by decide) (by decide)⟩

end Transcriber
